import Mathlib

/-!
Shallow embedding of the package-state reconciliation and export core of
`src/core/utils.rs` (universal-android-debloater-next-generation), together
with proofs of the specified properties.

The external collaborators (the classification store of `core/uad_lists.rs`,
the device-state provider of `core/sync.rs`, and the `PackageRow` record of
`gui/widgets/package_row.rs`) are not part of the provided sources; their
data types and boundary behaviour are modelled from the spec, as noted on
each such definition.  Filesystem effects of the export functions are made
explicit through oracle parameters.
-/

set_option maxHeartbeats 1000000

/-- Modelled from the spec: the mutually exclusive package states
`Enabled | Disabled | Uninstalled` (the `PackageState` enum of
`core/uad_lists.rs` is outside the provided sources). -/
inductive PackageState
  | Enabled
  | Disabled
  | Uninstalled
deriving DecidableEq

/-- Modelled from the spec: the closed list-membership classification tag
(`UadList` of `core/uad_lists.rs`, outside the provided sources) with
sentinel `Unlisted`; the concrete curated-list variants are abstracted by
an index. -/
inductive UadList
  | Unlisted
  | Curated (tag : Nat)
deriving DecidableEq

/-- Modelled from the spec: the closed removal-risk classification tag
(`Removal` of `core/uad_lists.rs`, outside the provided sources) with
sentinel `Unlisted`; the concrete documented-risk variants are abstracted by
an index. -/
inductive Removal
  | Unlisted
  | Documented (risk : Nat)
deriving DecidableEq

/-- Modelled from the spec: a classification-store entry, carrying a
description string, a list-membership tag and a removal-risk tag
(the `Package` struct of `core/uad_lists.rs`, outside the provided
sources). -/
structure Package where
  description : String
  list : UadList
  removal : Removal
deriving DecidableEq

/-- The classification store `PackageHashMap` (a `HashMap` keyed by package
name in the source), modelled as its lookup function: `get` may return
`none` for any name. -/
abbrev PackageHashMap := String → Option Package

/-- Modelled from the spec: the canonical record (`PackageRow` of
`gui/widgets/package_row.rs`, outside the provided sources): name, state,
description, the two classification tags, and the two user-controlled
flags. -/
structure PackageRow where
  name : String
  state : PackageState
  description : String
  uad_list : UadList
  removal : Removal
  selected : Bool
  marked : Bool
deriving DecidableEq

/-- Constructor mirroring `PackageRow::new` (field-by-field, in the argument
order used at the call site in `fetch_packages`). -/
def PackageRow.new (name : String) (state : PackageState) (description : String)
    (uad_list : UadList) (removal : Removal) (selected : Bool) (marked : Bool) :
    PackageRow :=
  ⟨name, state, description, uad_list, removal, selected, marked⟩

/-- Modelled from the spec: the DeviceStateProvider boundary
(`list_all_system_packages` / `hashset_system_packages` of `core/sync.rs`,
outside the provided sources).  `allPackages` is the list of lines of the
newline-joined listing returned by `list_all_system_packages` (the loop in
`fetch_packages` iterates `all_system_packages.lines()`); `enabled` and
`disabled` are the membership tests of the two hash sets returned by
`hashset_system_packages`. -/
structure DeviceState where
  allPackages : List String
  enabled : String → Bool
  disabled : String → Bool

/-- The sentinel description (src/core/utils.rs:50). -/
def defaultDescription : String := "[No description]: CONTRIBUTION WELCOMED"

/-- Body of the `for p_name in all_system_packages.lines()` loop of
`fetch_packages` (src/core/utils.rs:48-70): start from the sentinel
defaults, overwrite the tags (and, when non-empty, the description) from the
classification entry if present, then resolve the state by checking the
enabled set first and the disabled set second. -/
def rowOf (uad_lists : PackageHashMap) (ds : DeviceState) (p_name : String) :
    PackageRow :=
  let description :=
    match uad_lists p_name with
    | some package =>
        if package.description ≠ "" then package.description else defaultDescription
    | none => defaultDescription
  let uad_list :=
    match uad_lists p_name with
    | some package => package.list
    | none => UadList.Unlisted
  let removal :=
    match uad_lists p_name with
    | some package => package.removal
    | none => Removal.Unlisted
  let state :=
    if ds.enabled p_name then PackageState.Enabled
    else if ds.disabled p_name then PackageState.Disabled
    else PackageState.Uninstalled
  PackageRow.new p_name state description uad_list removal false false

/-- Rust's `str::to_lowercase`, modelled as the character-wise case mapping
(`Char.toLower` on every character of the string). -/
def toLowercase (s : String) : String :=
  String.mk (s.data.map Char.toLower)

/-- Lexicographic less-or-equal on character lists: the order computed by
Rust's byte-wise `str::cmp` on the UTF-8 encodings, which coincides with
code-point lexicographic order. -/
def charsLE : List Char → List Char → Bool
  | [], _ => true
  | _ :: _, [] => false
  | a :: as, b :: bs =>
      if a < b then true else if b < a then false else charsLE as bs

/-- The comparator of `user_package.sort_by(|a, b|
a.name.to_lowercase().cmp(&b.name.to_lowercase()))` (src/core/utils.rs:72),
as a boolean "less-or-equal" test. -/
def sortLE (a b : PackageRow) : Bool :=
  charsLE (toLowercase a.name).data (toLowercase b.name).data

/-- `sortLE` as a binary relation. -/
def sortRel (a b : PackageRow) : Prop := sortLE a b = true

instance : DecidableRel sortRel := fun a b => instDecidableEqBool (sortLE a b) true

theorem charsLE_refl (xs : List Char) : charsLE xs xs = true := by
  induction xs with
  | nil => rfl
  | cons a as ih => simp [charsLE, ih]

theorem charsLE_total (xs ys : List Char) :
    charsLE xs ys = true ∨ charsLE ys xs = true := by
  induction xs generalizing ys with
  | nil => exact Or.inl rfl
  | cons a as ih =>
    cases ys with
    | nil => exact Or.inr rfl
    | cons b bs =>
      rcases lt_trichotomy a b with h | h | h
      · exact Or.inl (by simp [charsLE, h])
      · subst h
        rcases ih bs with h2 | h2
        · exact Or.inl (by simp [charsLE, h2])
        · exact Or.inr (by simp [charsLE, h2])
      · exact Or.inr (by simp [charsLE, h])

theorem charsLE_trans :
    ∀ xs ys zs : List Char, charsLE xs ys = true → charsLE ys zs = true →
      charsLE xs zs = true
  | [], _, _, _, _ => rfl
  | _ :: _, [], _, h1, _ => by simp [charsLE] at h1
  | _ :: _, _ :: _, [], _, h2 => by simp [charsLE] at h2
  | a :: as, b :: bs, c :: cs, h1, h2 => by
    by_cases hab : a < b
    · by_cases hbc : b < c
      · simp [charsLE, lt_trans hab hbc]
      · by_cases hcb : c < b
        · simp [charsLE, hbc, hcb] at h2
        · have hbc' : b = c := le_antisymm (not_lt.mp hcb) (not_lt.mp hbc)
          subst hbc'
          simp [charsLE, hab]
    · by_cases hba : b < a
      · simp [charsLE, hab, hba] at h1
      · have hab' : a = b := le_antisymm (not_lt.mp hba) (not_lt.mp hab)
        subst hab'
        simp [charsLE, lt_irrefl] at h1
        by_cases hac : a < c
        · simp [charsLE, hac]
        · by_cases hca : c < a
          · simp [charsLE, hac, hca] at h2
          · simp [charsLE, hac, hca] at h2 ⊢
            exact charsLE_trans as bs cs h1 h2

instance : IsTotal PackageRow sortRel :=
  ⟨fun _ _ => charsLE_total _ _⟩

instance : IsTrans PackageRow sortRel :=
  ⟨fun _ _ _ h1 h2 => charsLE_trans _ _ _ h1 h2⟩

/-- `fetch_packages` (src/core/utils.rs:38-74): build one row per line of
the full device listing, then stable-sort by the case-insensitive name key.
Rust's `sort_by` is a stable sort, and a stable sort's output is uniquely
determined by the comparator and the input order, so it is modelled by the
stable `List.insertionSort`. -/
def fetch_packages (uad_lists : PackageHashMap) (ds : DeviceState) :
    List PackageRow :=
  let user_package := ds.allPackages.map (rowOf uad_lists ds)
  user_package.insertionSort sortRel

-- Basic helper lemmas about the reconciler.

theorem rowOf_name (uad_lists : PackageHashMap) (ds : DeviceState) (p : String) :
    (rowOf uad_lists ds p).name = p := rfl

theorem fetch_packages_perm (uad_lists : PackageHashMap) (ds : DeviceState) :
    (fetch_packages uad_lists ds).Perm (ds.allPackages.map (rowOf uad_lists ds)) :=
  List.perm_insertionSort _ _

theorem names_of_map_rowOf (uad_lists : PackageHashMap) (ds : DeviceState) :
    (ds.allPackages.map (rowOf uad_lists ds)).map PackageRow.name = ds.allPackages := by
  rw [List.map_map]
  have h : PackageRow.name ∘ rowOf uad_lists ds = id := by
    funext p
    rfl
  rw [h, List.map_id]

theorem fetch_packages_names_perm (uad_lists : PackageHashMap) (ds : DeviceState) :
    ((fetch_packages uad_lists ds).map PackageRow.name).Perm ds.allPackages := by
  have h := (fetch_packages_perm uad_lists ds).map PackageRow.name
  rwa [names_of_map_rowOf] at h

theorem mem_fetch_packages (uad_lists : PackageHashMap) (ds : DeviceState)
    (r : PackageRow) :
    r ∈ fetch_packages uad_lists ds ↔
      ∃ p ∈ ds.allPackages, rowOf uad_lists ds p = r := by
  simp [fetch_packages, List.mem_insertionSort]

theorem rowOf_state (uad_lists : PackageHashMap) (ds : DeviceState) (p : String) :
    (rowOf uad_lists ds p).state =
      (if ds.enabled p then PackageState.Enabled
       else if ds.disabled p then PackageState.Disabled
       else PackageState.Uninstalled) := rfl

theorem rowOf_description (uad_lists : PackageHashMap) (ds : DeviceState) (p : String) :
    (rowOf uad_lists ds p).description =
      (match uad_lists p with
       | some package =>
           if package.description ≠ "" then package.description else defaultDescription
       | none => defaultDescription) := rfl

theorem rowOf_uad_list (uad_lists : PackageHashMap) (ds : DeviceState) (p : String) :
    (rowOf uad_lists ds p).uad_list =
      (match uad_lists p with
       | some package => package.list
       | none => UadList.Unlisted) := rfl

theorem rowOf_removal (uad_lists : PackageHashMap) (ds : DeviceState) (p : String) :
    (rowOf uad_lists ds p).removal =
      (match uad_lists p with
       | some package => package.removal
       | none => Removal.Unlisted) := rfl

/-- The stability property of the reconciler's sort: filtering the output by
any fixed case-insensitive key gives exactly the same list (same elements in
the same order) as filtering the unsorted record list built from the device
listing. -/
theorem fetch_packages_filter_key (uad_lists : PackageHashMap) (ds : DeviceState)
    (k : String) :
    (fetch_packages uad_lists ds).filter (fun r => toLowercase r.name == k)
      = (ds.allPackages.map (rowOf uad_lists ds)).filter
          (fun r => toLowercase r.name == k) := by
  have hkey : ∀ a ∈ (ds.allPackages.map (rowOf uad_lists ds)).filter
      (fun r => toLowercase r.name == k), toLowercase a.name = k := by
    intro a ha
    exact eq_of_beq (List.mem_filter.mp ha).2
  have hpair : ((ds.allPackages.map (rowOf uad_lists ds)).filter
      (fun r => toLowercase r.name == k)).Pairwise sortRel := by
    refine List.pairwise_of_forall_mem_list ?_
    intro a ha b hb
    have ea := hkey a ha
    have eb := hkey b hb
    unfold sortRel sortLE
    rw [ea, eb]
    exact charsLE_refl _
  have hsub : List.Sublist
      ((ds.allPackages.map (rowOf uad_lists ds)).filter
        (fun r => toLowercase r.name == k))
      (fetch_packages uad_lists ds) :=
    List.sublist_insertionSort hpair (List.filter_sublist _)
  have hperm : List.Perm
      ((fetch_packages uad_lists ds).filter (fun r => toLowercase r.name == k))
      ((ds.allPackages.map (rowOf uad_lists ds)).filter
        (fun r => toLowercase r.name == k)) :=
    (fetch_packages_perm uad_lists ds).filter _
  have hsub2 : List.Sublist
      ((ds.allPackages.map (rowOf uad_lists ds)).filter
        (fun r => toLowercase r.name == k))
      ((fetch_packages uad_lists ds).filter (fun r => toLowercase r.name == k)) := by
    have h2 := hsub.filter (fun r => toLowercase r.name == k)
    rwa [List.filter_eq_self.mpr (fun a ha => (List.mem_filter.mp ha).2)] at h2
  exact (hsub2.eq_of_length hperm.length_eq.symm).symm

/-- Claim C1: every line of the full device listing yields exactly one
record (the multiset of output names is exactly the multiset of listing
lines), and no record is produced whose name is not in the listing; in
particular a name known only to the classification store yields no
record. -/
theorem fetch_packages_total_coverage (uad_lists : PackageHashMap) (ds : DeviceState) :
    ((fetch_packages uad_lists ds).map PackageRow.name).Perm ds.allPackages
    ∧ ∀ n : String, n ∉ ds.allPackages →
        ((fetch_packages uad_lists ds).map PackageRow.name).count n = 0 := by
  refine ⟨fetch_packages_names_perm _ _, ?_⟩
  intro n hn
  rw [(fetch_packages_names_perm uad_lists ds).count_eq n]
  exact List.count_eq_zero.mpr hn

/-- Witness for C1 at a concrete input: the name known only to the
classification store and absent from the listing yields no record. -/
theorem fetch_packages_total_coverage_witness :
    "com.zzz" ∉ (["com.a", "com.b"] : List String)
    ∧ ((fetch_packages
          (fun n => if n = "com.zzz" then some ⟨"d", UadList.Curated 0, Removal.Documented 0⟩ else none)
          ⟨["com.a", "com.b"], fun _ => false, fun _ => false⟩).map
          PackageRow.name).count "com.zzz" = 0 :=
  ⟨by decide,
    (fetch_packages_total_coverage
      (fun n => if n = "com.zzz" then some ⟨"d", UadList.Curated 0, Removal.Documented 0⟩ else none)
      ⟨["com.a", "com.b"], fun _ => false, fun _ => false⟩).2 "com.zzz" (by decide)⟩

/-- Claim C2: every produced record's state is Enabled when its name is in
the enabled set, else Disabled when in the disabled set, else Uninstalled;
in particular a name in both sets resolves to Enabled. -/
theorem fetch_packages_state_precedence (uad_lists : PackageHashMap) (ds : DeviceState) :
    ∀ r ∈ fetch_packages uad_lists ds,
      r.state = (if ds.enabled r.name then PackageState.Enabled
        else if ds.disabled r.name then PackageState.Disabled
        else PackageState.Uninstalled)
      ∧ (ds.enabled r.name = true → ds.disabled r.name = true →
          r.state = PackageState.Enabled) := by
  intro r hr
  obtain ⟨p, hp, rfl⟩ := (mem_fetch_packages _ _ r).mp hr
  rw [rowOf_name, rowOf_state]
  refine ⟨rfl, ?_⟩
  intro he _
  simp [he]

/-- Witness for C2 at a concrete input: a name present in both the enabled
and the disabled set resolves to Enabled. -/
theorem fetch_packages_state_precedence_witness :
    rowOf (fun _ => none) ⟨["p"], fun _ => true, fun _ => true⟩ "p" ∈
      fetch_packages (fun _ => none) ⟨["p"], fun _ => true, fun _ => true⟩
    ∧ (rowOf (fun _ => none) ⟨["p"], fun _ => true, fun _ => true⟩ "p").state
        = PackageState.Enabled :=
  ⟨by decide,
    (fetch_packages_state_precedence (fun _ => none) ⟨["p"], fun _ => true, fun _ => true⟩
      (rowOf (fun _ => none) ⟨["p"], fun _ => true, fun _ => true⟩ "p")
      (by decide)).2 (by decide) (by decide)⟩

/-- Claim C3: a record whose name has no classification entry carries the
sentinel description and the Unlisted tags; a record whose name has an
entry takes both tags unconditionally from the entry and the entry's
description only when that description is non-empty (an empty entry
description still yields the sentinel). -/
theorem fetch_packages_sentinel_defaults (uad_lists : PackageHashMap) (ds : DeviceState) :
    ∀ r ∈ fetch_packages uad_lists ds,
      (uad_lists r.name = none →
        r.description = defaultDescription
        ∧ r.uad_list = UadList.Unlisted
        ∧ r.removal = Removal.Unlisted)
      ∧ ∀ pkg : Package, uad_lists r.name = some pkg →
          r.uad_list = pkg.list
          ∧ r.removal = pkg.removal
          ∧ r.description =
              (if pkg.description = "" then defaultDescription else pkg.description) := by
  intro r hr
  obtain ⟨p, hp, rfl⟩ := (mem_fetch_packages _ _ r).mp hr
  rw [rowOf_name]
  constructor
  · intro h
    rw [rowOf_description, rowOf_uad_list, rowOf_removal, h]
    exact ⟨rfl, rfl, rfl⟩
  · intro pkg h
    rw [rowOf_description, rowOf_uad_list, rowOf_removal, h]
    refine ⟨rfl, rfl, ?_⟩
    by_cases hd : pkg.description = "" <;> simp [hd]

/-- Witness for C3 at a concrete input: an entry with an empty description
still yields the sentinel description, while its tags are taken from the
entry. -/
theorem fetch_packages_sentinel_defaults_witness :
    rowOf (fun _ => some ⟨"", UadList.Curated 3, Removal.Documented 5⟩)
        ⟨["p"], fun _ => false, fun _ => false⟩ "p" ∈
      fetch_packages (fun _ => some ⟨"", UadList.Curated 3, Removal.Documented 5⟩)
        ⟨["p"], fun _ => false, fun _ => false⟩
    ∧ ((fun (_ : String) => some (⟨"", UadList.Curated 3, Removal.Documented 5⟩ : Package))
        (rowOf (fun _ => some ⟨"", UadList.Curated 3, Removal.Documented 5⟩)
          ⟨["p"], fun _ => false, fun _ => false⟩ "p").name
        = some ⟨"", UadList.Curated 3, Removal.Documented 5⟩)
    ∧ (rowOf (fun _ => some ⟨"", UadList.Curated 3, Removal.Documented 5⟩)
        ⟨["p"], fun _ => false, fun _ => false⟩ "p").uad_list = UadList.Curated 3
    ∧ (rowOf (fun _ => some ⟨"", UadList.Curated 3, Removal.Documented 5⟩)
        ⟨["p"], fun _ => false, fun _ => false⟩ "p").removal = Removal.Documented 5
    ∧ (rowOf (fun _ => some ⟨"", UadList.Curated 3, Removal.Documented 5⟩)
        ⟨["p"], fun _ => false, fun _ => false⟩ "p").description = defaultDescription := by
  refine ⟨by decide, rfl, ?_⟩
  have h := (fetch_packages_sentinel_defaults
    (fun _ => some ⟨"", UadList.Curated 3, Removal.Documented 5⟩)
    ⟨["p"], fun _ => false, fun _ => false⟩
    (rowOf (fun _ => some ⟨"", UadList.Curated 3, Removal.Documented 5⟩)
      ⟨["p"], fun _ => false, fun _ => false⟩ "p") (by decide)).2
    ⟨"", UadList.Curated 3, Removal.Documented 5⟩ rfl
  refine ⟨h.1, h.2.1, ?_⟩
  rw [h.2.2]
  rfl

/-- Claim C4: the reconciler's output is sorted by the case-insensitive
name key, the sort is stable (filtering by any fixed key preserves the
relative order coming from the device listing), and the concrete example
listing from the spec sorts as stated. -/
theorem fetch_packages_sorted_stable (uad_lists : PackageHashMap) (ds : DeviceState) :
    (fetch_packages uad_lists ds).Pairwise sortRel
    ∧ (∀ k : String,
        (fetch_packages uad_lists ds).filter (fun r => toLowercase r.name == k)
          = (ds.allPackages.map (rowOf uad_lists ds)).filter
              (fun r => toLowercase r.name == k))
    ∧ (fetch_packages (fun _ => none)
        ⟨["zeta", "Alpha", "beta"], fun _ => false, fun _ => false⟩).map
        PackageRow.name = ["Alpha", "beta", "zeta"] :=
  ⟨List.sorted_insertionSort sortRel _, fetch_packages_filter_key uad_lists ds, by decide⟩

/-- Claim C9 counterexample: the code does not deduplicate the device
listing, so a listing with a repeated line produces two records with the
same name, refuting the unconditional no-duplicates invariant. -/
theorem fetch_packages_name_invariant_cex :
    ¬ (((fetch_packages (fun _ => none)
        ⟨["com.a", "com.a"], fun _ => false, fun _ => false⟩).map
        PackageRow.name).Nodup) := by decide

/-- Claim C9 (amended): under the device-provider contract that listing
lines are non-empty and pairwise distinct, every produced record has a
non-empty name and the output names are duplicate-free (exactly one record
per distinct name). -/
theorem fetch_packages_name_invariant (uad_lists : PackageHashMap) (ds : DeviceState)
    (hne : ∀ n ∈ ds.allPackages, n ≠ "") (hnd : ds.allPackages.Nodup) :
    (∀ r ∈ fetch_packages uad_lists ds, r.name ≠ "")
    ∧ ((fetch_packages uad_lists ds).map PackageRow.name).Nodup := by
  constructor
  · intro r hr
    obtain ⟨p, hp, rfl⟩ := (mem_fetch_packages _ _ r).mp hr
    rw [rowOf_name]
    exact hne p hp
  · exact ((fetch_packages_names_perm uad_lists ds).nodup_iff).mpr hnd

/-- Witness for the amended C9 at a concrete input. -/
theorem fetch_packages_name_invariant_witness :
    (∀ n ∈ (["com.a", "com.b"] : List String), n ≠ "")
    ∧ (["com.a", "com.b"] : List String).Nodup
    ∧ ((∀ r ∈ fetch_packages (fun _ => none)
          ⟨["com.a", "com.b"], fun _ => false, fun _ => false⟩, r.name ≠ "")
        ∧ ((fetch_packages (fun _ => none)
            ⟨["com.a", "com.b"], fun _ => false, fun _ => false⟩).map
            PackageRow.name).Nodup) :=
  ⟨by decide, by decide,
    fetch_packages_name_invariant (fun _ => none)
      ⟨["com.a", "com.b"], fun _ => false, fun _ => false⟩ (by decide) (by decide)⟩

-- Backup-name policy (src/core/utils.rs:25-31).

/-- Two-digit zero-padded decimal, as produced by chrono's `%m` / `%d`. -/
def pad2 (n : Nat) : String :=
  if n < 10 then "0" ++ toString n else toString n

/-- Four-digit zero-padded decimal, as produced by chrono's `%Y` for the
common-era years relevant here. -/
def pad4 (n : Nat) : String :=
  if n < 10 then "000" ++ toString n
  else if n < 100 then "00" ++ toString n
  else if n < 1000 then "0" ++ toString n
  else toString n

/-- Civil (proleptic Gregorian) date, as `(year, month, day)`, of the day
that lies `z0` days after 1970-01-01; the standard era-based conversion
used by calendar libraries such as chrono. -/
def civilFromDays (z0 : Int) : Int × Nat × Nat :=
  let z : Int := z0 + 719468
  let era : Int := Int.fdiv z 146097
  let doe : Nat := (z - era * 146097).toNat
  let yoe : Nat := (doe - doe / 1460 + doe / 36524 - doe / 146096) / 365
  let y : Int := (yoe : Int) + era * 400
  let doy : Nat := doe - (365 * yoe + yoe / 4 - yoe / 100)
  let mp : Nat := (5 * doy + 2) / 153
  let d : Nat := doy - (153 * mp + 2) / 5 + 1
  let m : Nat := if mp < 10 then mp + 3 else mp - 9
  (if m ≤ 2 then y + 1 else y, m, d)

/-- Civil date of an instant given in milliseconds since the Unix epoch,
in the formatting timezone (UTC for the reproducibility test). -/
def civilFromMillis (ms : Int) : Int × Nat × Nat :=
  civilFromDays (Int.fdiv ms 86400000)

/-- chrono's `%Y%m%d` format of a civil date. -/
def formatYMD (d : Int × Nat × Nat) : String :=
  pad4 d.1.toNat ++ pad2 d.2.1 ++ pad2 d.2.2

/-- `generate_backup_name` (src/core/utils.rs:25-31): the time-stamp
parameter (a chrono `DateTime`, modelled by its instant in milliseconds
since the Unix epoch in the formatting timezone) is turned into
`format!("uninstalled_packages_{}.csv", t.format("%Y%m%d"))`. -/
def generate_backup_name (t : Int) : String :=
  "uninstalled_packages_" ++ formatYMD (civilFromMillis t) ++ ".csv"

/-- Claim C5: the backup filename is a pure function of the caller-supplied
timestamp following the `uninstalled_packages_<YYYYMMDD>.csv` pattern, and
at the UTC instant 1970-01-01T00:00:00Z it is exactly
`uninstalled_packages_19700101.csv`. -/
theorem generate_backup_name_deterministic :
    (∀ t : Int, generate_backup_name t
        = "uninstalled_packages_" ++ formatYMD (civilFromMillis t) ++ ".csv")
    ∧ generate_backup_name 0 = "uninstalled_packages_19700101.csv" :=
  ⟨fun _ => rfl, by decide⟩

-- Selection export (src/core/utils.rs:140-154).

/-- The fixed selection-export filename (src/core/utils.rs:18). -/
def EXPORT_FILE_NAME : String := "selection_export.txt"

/-- The string written by `export_selection`: the names of the selected
records, joined by a single newline
(`packages.iter().filter(|p| p.selected).map(|p| p.name.clone())
.collect::<Vec<String>>().join("\n")`, src/core/utils.rs:143-148). -/
def selection_content (packages : List PackageRow) : String :=
  String.intercalate "\n" ((packages.filter (fun p => p.selected)).map (fun p => p.name))

/-- `export_selection` (src/core/utils.rs:142-154).  The effect of
`fs::write` (create-or-truncate then write the whole string) is modelled by
the oracle `fs_write`, which returns the error message on failure. -/
def export_selection (fs_write : String → String → Except String Unit)
    (packages : List PackageRow) : Except String Bool :=
  match fs_write EXPORT_FILE_NAME (selection_content packages) with
  | Except.ok _ => Except.ok true
  | Except.error err => Except.error err

/-- Claim C7: the selection export writes exactly the newline-joined names
of the selected records (regardless of state) to the fixed filename; it
fails exactly when the underlying write fails, and an empty selection
writes the empty string rather than failing. -/
theorem export_selection_spec (fs_write : String → String → Except String Unit)
    (packages : List PackageRow) :
    selection_content packages
      = String.intercalate "\n"
          ((packages.filter (fun p => p.selected)).map (fun p => p.name))
    ∧ (export_selection fs_write packages = Except.ok true
        ↔ (fs_write EXPORT_FILE_NAME (selection_content packages)).isOk = true)
    ∧ (∀ e : String, export_selection fs_write packages = Except.error e
        ↔ fs_write EXPORT_FILE_NAME (selection_content packages) = Except.error e)
    ∧ (packages.filter (fun p => p.selected) = [] → selection_content packages = "") := by
  refine ⟨rfl, ?_, ?_, ?_⟩
  · unfold export_selection
    cases fs_write EXPORT_FILE_NAME (selection_content packages) <;>
      simp [Except.isOk, Except.toBool]
  · intro e
    unfold export_selection
    cases fs_write EXPORT_FILE_NAME (selection_content packages) <;> simp
  · intro h
    unfold selection_content
    rw [h]
    rfl

/-- Witness for C7 at a concrete input: a record collection with nothing
selected yields the empty content (and a successful write). -/
theorem export_selection_spec_witness :
    ([PackageRow.new "a" PackageState.Enabled "d" UadList.Unlisted Removal.Unlisted
        false false].filter (fun p => p.selected) = [])
    ∧ selection_content
        [PackageRow.new "a" PackageState.Enabled "d" UadList.Unlisted Removal.Unlisted
          false false] = "" :=
  ⟨by decide,
    (export_selection_spec (fun _ _ => Except.ok ())
      [PackageRow.new "a" PackageState.Enabled "d" UadList.Unlisted Removal.Unlisted
        false false]).2.2.2 (by decide)⟩

-- Backup export (src/core/utils.rs:191-218).

/-- Rust's `str::replace('\n', " ")` on a description: every occurrence of
the one-character pattern is replaced by the one-character string, i.e. a
character-wise map. -/
def replace_newlines (s : String) : String :=
  String.mk (s.data.map (fun c => if c = '\n' then ' ' else c))

/-- The CSV records written by `export_packages` for a per-user record
collection: the header, then one row per record with state `Uninstalled`,
carrying the name and the newline-sanitised description
(src/core/utils.rs:202-213). -/
def export_packages_rows (packages : List PackageRow) : List (List String) :=
  ["Package Name", "Description"] ::
    ((packages.filter (fun p => p.state == PackageState.Uninstalled)).map
      (fun p => [p.name, replace_newlines p.description]))

theorem replace_newlines_no_newline (s : String) :
    ('\n' : Char) ∉ (replace_newlines s).data := by
  intro h
  have h2 : ('\n' : Char) ∈ s.data.map (fun c => if c = '\n' then ' ' else c) := h
  obtain ⟨c, _, hcc⟩ := List.mem_map.mp h2
  by_cases hc : c = '\n'
  · rw [if_pos hc] at hcc
    exact absurd hcc (by decide)
  · rw [if_neg hc] at hcc
    exact hc hcc

/-- Claim C6: the backup export writes the `Package Name, Description`
header followed by exactly one data row per `Uninstalled` record, each row
carrying the record's name and its description with every newline replaced
by a space, so no sanitised description contains a newline. -/
theorem export_packages_backup_rows (packages : List PackageRow) :
    export_packages_rows packages
      = ["Package Name", "Description"] ::
          ((packages.filter (fun p => p.state == PackageState.Uninstalled)).map
            (fun p => [p.name, replace_newlines p.description]))
    ∧ ∀ p ∈ packages, ('\n' : Char) ∉ (replace_newlines p.description).data :=
  ⟨rfl, fun p _ => replace_newlines_no_newline p.description⟩

/-- Witness for C6 at a concrete input: a description with an embedded
newline is written as one space-joined field. -/
theorem export_packages_backup_rows_witness :
    (PackageRow.new "a" PackageState.Uninstalled "line1\nline2" UadList.Unlisted
        Removal.Unlisted false false)
      ∈ [PackageRow.new "a" PackageState.Uninstalled "line1\nline2" UadList.Unlisted
          Removal.Unlisted false false]
    ∧ ('\n' : Char) ∉ (replace_newlines "line1\nline2").data :=
  ⟨by decide,
    (export_packages_backup_rows
      [PackageRow.new "a" PackageState.Uninstalled "line1\nline2" UadList.Unlisted
        Removal.Unlisted false false]).2
      (PackageRow.new "a" PackageState.Uninstalled "line1\nline2" UadList.Unlisted
        Removal.Unlisted false false) (by decide)⟩

/-- Modelled from the spec: the filesystem behaviour visible to the backup
export — whether `File::create` succeeds, whether the k-th `write_record`
call succeeds, and whether the final `flush` succeeds.  The file content is
tracked as the list of records successfully written (`none` = the file was
never created). -/
structure FsOracle where
  createOk : Bool
  writeOk : Nat → Bool
  flushOk : Bool

/-- Write rows sequentially through the oracle starting at call index `k`:
returns the rows actually written and the error of the first failing call,
if any (the loop at src/core/utils.rs:210-213 returns at the first
failure). -/
def write_records (o : FsOracle) (k : Nat) :
    List (List String) → List (List String) × Option String
  | [] => ([], none)
  | row :: rest =>
      if o.writeOk k then
        let r := write_records o (k + 1) rest
        (row :: r.1, r.2)
      else ([], some "record write failed")

/-- `export_packages`' effect skeleton for one per-user record collection
(src/core/utils.rs:199-217): create the file (an early error return if that
fails, with no file created), write the header and the filtered data rows
record by record (an early error return at the first failure), then flush.
Returns the function result together with the final file content. -/
def export_packages_fs (o : FsOracle) (packages : List PackageRow) :
    Except String Bool × Option (List (List String)) :=
  if o.createOk then
    let w := write_records o 0 (export_packages_rows packages)
    match w.2 with
    | some e => (Except.error e, some w.1)
    | none =>
        if o.flushOk then (Except.ok true, some w.1)
        else (Except.error "flush failed", some w.1)
  else (Except.error "create failed", none)

/-- Claim C8 counterexample: with file creation and the header write
succeeding but the first data-row write failing, `export_packages` returns
an error yet leaves a created file holding only the header — neither absent
nor fully written, refuting the no-partial-file guarantee. -/
theorem export_packages_atomicity_cex :
    ((export_packages_fs ⟨true, fun k => k == 0, true⟩
        [PackageRow.new "a" PackageState.Uninstalled "d" UadList.Unlisted
          Removal.Unlisted false false]).1 = Except.error "record write failed")
    ∧ ((export_packages_fs ⟨true, fun k => k == 0, true⟩
        [PackageRow.new "a" PackageState.Uninstalled "d" UadList.Unlisted
          Removal.Unlisted false false]).2 = some [["Package Name", "Description"]])
    ∧ (some [["Package Name", "Description"]] : Option (List (List String)))
        ≠ some (export_packages_rows
            [PackageRow.new "a" PackageState.Uninstalled "d" UadList.Unlisted
              Removal.Unlisted false false])
    ∧ (some [["Package Name", "Description"]] : Option (List (List String))) ≠ none := by
  refine ⟨rfl, rfl, by decide, by simp⟩

theorem write_records_content (o : FsOracle) :
    ∀ (rows : List (List String)) (k : Nat),
      ∃ j, (write_records o k rows).1 = rows.take j := by
  intro rows
  induction rows with
  | nil => exact fun _ => ⟨0, rfl⟩
  | cons row rest ih =>
    intro k
    by_cases h : o.writeOk k
    · obtain ⟨j, hj⟩ := ih (k + 1)
      exact ⟨j + 1, by simp [write_records, h, hj]⟩
    · exact ⟨0, by simp [write_records, h]⟩

/-- Claim C8 (amended): whenever the backup export returns a failure, the
file is either never created (creation failed) or contains an initial run
of the intended rows; a partially-written file can remain after a failed
row write or flush. -/
theorem export_packages_atomicity_amended (o : FsOracle) (packages : List PackageRow)
    (e : String) (h : (export_packages_fs o packages).1 = Except.error e) :
    (export_packages_fs o packages).2 = none
    ∨ ∃ j, (export_packages_fs o packages).2
        = some ((export_packages_rows packages).take j) := by
  by_cases hc : o.createOk
  · right
    obtain ⟨j, hj⟩ := write_records_content o (export_packages_rows packages) 0
    refine ⟨j, ?_⟩
    cases hw : (write_records o 0 (export_packages_rows packages)).2 <;>
      by_cases hf : o.flushOk <;>
        simp [export_packages_fs, hc, hw, hf, hj]
  · left
    simp [export_packages_fs, hc]

/-- Witness for the amended C8 at a concrete input: when file creation
fails, the export reports the error and no file exists. -/
theorem export_packages_atomicity_amended_witness :
    ((export_packages_fs ⟨false, fun _ => true, true⟩ []).1
        = Except.error "create failed")
    ∧ ((export_packages_fs ⟨false, fun _ => true, true⟩ []).2 = none
        ∨ ∃ j, (export_packages_fs ⟨false, fun _ => true, true⟩ []).2
            = some ((export_packages_rows []).take j)) :=
  ⟨rfl, export_packages_atomicity_amended ⟨false, fun _ => true, true⟩ [] "create failed" rfl⟩

/-- Modelled from the spec: the device user profile selector (struct `User`
of `core/sync.rs`, outside the provided sources); only its `index` field —
the position used to index the per-user package table — is relevant
here. -/
structure User where
  index : Nat

/-- `export_packages` (src/core/utils.rs:193-218): `phone_packages[user.index]`
indexes the per-user package table without a bounds check
(src/core/utils.rs:205); an in-range index selects that user's record
collection, an out-of-range index panics, which is modelled as `none`. -/
def export_packages (o : FsOracle) (user : User)
    (phone_packages : List (List PackageRow)) :
    Option (Except String Bool × Option (List (List String))) :=
  if h : user.index < phone_packages.length then
    some (export_packages_fs o (phone_packages.get ⟨user.index, h⟩))
  else none

/-- Claim C10: the backup export completes (returning its result, with all
failures surfaced as the error value) exactly when `user.index` is within
bounds of the per-user package table; any input violating that precondition
panics instead of returning an export error. -/
theorem export_packages_index_precondition (o : FsOracle) (user : User)
    (phone_packages : List (List PackageRow)) :
    (export_packages o user phone_packages).isSome = true
      ↔ user.index < phone_packages.length := by
  unfold export_packages
  by_cases h : user.index < phone_packages.length <;> simp [h]
